import Mathlib

/-!
Verification of the pub/sub message-router core (TypeScript implementation).

The definitions below are a shallow embedding of the TypeScript source:

* `RingBuffer` mirrors the `RingBuffer<T>` class (array of nullable cells,
  `capacity`, `size`, `front`, `rear`, with `push`/`clear`/`getAll` translated
  statement by statement).
* `MessageQueue` mirrors the `MessageQueue` class.  JavaScript `Map`s are
  embedded as insertion-ordered association lists (a JS `Map` iterates in
  insertion order), the `Set` of seen ids as an insertion-ordered duplicate-free
  list, and the `BroadcastChannel` handle as a boolean presence flag whose
  `postMessage` calls are recorded in an event trace.
* Subscriber callbacks are embedded by their observable behaviour: a pure
  function from the four call arguments to `Except String Unit` (`error` models
  a thrown exception).  Every callback invocation and every caught callback
  error (`console.error`) is recorded in the event trace, as is every
  `postMessage` on the channel.
* The nondeterministic environment inputs `generateUUID()` and `Date.now()`
  are passed to `publish` as explicit arguments.
-/

namespace WasmRipple

/-- The fixed-capacity circular store of the source (`class RingBuffer<T>`).
`buffer` is the backing array of nullable cells (`(T | null)[]`). -/
structure RingBuffer (α : Type) where
  buffer : List (Option α)
  capacity : Nat
  size : Nat
  front : Nat
  rear : Nat
  deriving DecidableEq

namespace RingBuffer

variable {α : Type}

/-- The constructor: `new RingBuffer(capacity)` fills the backing array
with `null`. -/
def new (capacity : Nat) : RingBuffer α :=
  { buffer := List.replicate capacity none
    capacity := capacity
    size := 0
    front := 0
    rear := 0 }

/-- Source `isEmpty()`. -/
def isEmpty (b : RingBuffer α) : Bool := b.size == 0

/-- Source `isFull()`. -/
def isFull (b : RingBuffer α) : Bool := b.size == b.capacity

/-- Source `len()`. -/
def len (b : RingBuffer α) : Nat := b.size

/-- Source `getCapacity()`. -/
def getCapacity (b : RingBuffer α) : Nat := b.capacity

/-- Source `push(item)`: returns the displaced item (if the buffer was full)
together with the updated buffer.  Mirrors the source: capacity 0 returns the
item immediately; a full buffer first nulls and advances `front`; the item is
written at `rear`; `size` is incremented only when nothing was displaced. -/
def push (b : RingBuffer α) (item : α) : Option α × RingBuffer α :=
  if b.capacity = 0 then (some item, b)
  else
    let displaced : Option α := if b.isFull then b.buffer.getD b.front none else none
    let buf1 := if b.isFull then b.buffer.set b.front none else b.buffer
    let front1 := if b.isFull then (b.front + 1) % b.capacity else b.front
    let buf2 := buf1.set b.rear (some item)
    let rear1 := (b.rear + 1) % b.capacity
    let size1 := match displaced with
      | none => b.size + 1
      | some _ => b.size
    (displaced, { buffer := buf2, capacity := b.capacity, size := size1,
                  front := front1, rear := rear1 })

/-- Source `clear()`: empties the buffer (`fill(null)`, reset the cursors) and
returns the number of removed items. -/
def clear (b : RingBuffer α) : Nat × RingBuffer α :=
  (b.size, { buffer := List.replicate b.buffer.length none, capacity := b.capacity,
             size := 0, front := 0, rear := 0 })

/-- The loop of `getAll()`: walk `count` cells starting at `idx`, wrapping
modulo `cap`, collecting non-null cells. -/
def getAllLoop (buf : List (Option α)) (cap : Nat) : Nat → Nat → List α
  | _, 0 => []
  | idx, Nat.succ n =>
    match buf.getD idx none with
    | some x => x :: getAllLoop buf cap ((idx + 1) % cap) n
    | none => getAllLoop buf cap ((idx + 1) % cap) n

/-- Source `getAll()`: the oldest-to-newest snapshot. -/
def getAll (b : RingBuffer α) : List α :=
  if b.isEmpty then [] else getAllLoop b.buffer b.capacity b.front b.size

/-- Iterated `push`, discarding the displaced items: the "sequence of n
pushes" of the specification. -/
def pushAll (b : RingBuffer α) (items : List α) : RingBuffer α :=
  items.foldl (fun acc x => (acc.push x).2) b

/-- The last `C` elements of `l` (all of `l` when `l` is shorter than `C`). -/
def lastN (C : Nat) (l : List α) : List α := l.drop (l.length - C)

/-- Abstraction relation: the buffer state `b` stores exactly the list `l`
(oldest first), with a consistent circular layout.  Only used for positive
capacity; capacity 0 is handled separately since `push` leaves the state
untouched there. -/
structure Represents (b : RingBuffer α) (l : List α) : Prop where
  hbuf : b.buffer.length = b.capacity
  hsize : b.size = l.length
  hle : l.length ≤ b.capacity
  hpos : 0 < b.capacity
  hfront : b.front < b.capacity
  hrear : b.rear = (b.front + b.size) % b.capacity
  hwin : ∀ i, i < l.length → b.buffer.getD ((b.front + i) % b.capacity) none = l.get? i


end RingBuffer

/-- The message record of the source (`interface Message<T>`). -/
structure Message (π : Type) where
  id : String
  topic_id : Nat
  origin_id : String
  payload : π
  timestamp : Nat
  deriving DecidableEq

/-- A subscriber callback, embedded by its observable behaviour: given the
four call arguments `(payload, topicId, timestamp, messageId)` it either
returns (`Except.ok`) or raises an error (`Except.error`) carrying the error
description. -/
def SubscriberCallback (π : Type) : Type :=
  π → Nat → Nat → String → Except String Unit

/-- The wire object `{...msg, topic_name}` handed to
`channel.postMessage([0, wireMsg])` and received in `handleChannelMessage`. -/
structure WireMessage (π : Type) where
  id : String
  topic_id : Nat
  origin_id : String
  payload : π
  timestamp : Nat
  topic_name : String
  deriving DecidableEq

/-- Observable events of one operation, in program order: a subscriber
callback invocation with its four arguments, a caught callback error
(`console.error`), or a `postMessage` on the broadcast channel. -/
inductive Event (π : Type) where
  | invoke (subId : Nat) (payload : π) (topicId : Nat) (timestamp : Nat) (msgId : String)
  | cbError (subId : Nat) (err : String)
  | post (kind : Nat) (wire : WireMessage π)
  deriving DecidableEq

/-- The per-topic record of the source (`interface TopicState`).
`subscribers` embeds the JS `Map<number, SubscriberCallback>` as an
insertion-ordered association list. -/
structure TopicState (π : Type) where
  id : Nat
  name : String
  subscribers : List (Nat × SubscriberCallback π)
  buffer : Option (RingBuffer (Message π))
  nextSubId : Nat

/-- The instance state of the source (`class MessageQueue`).  `channel` is
true when a `BroadcastChannel` handle is held (a channel name was supplied
and the platform primitive exists). -/
structure MessageQueue (π : Type) where
  topics : List (TopicState π)
  topicIndex : List (String × Nat)
  channel : Bool
  clientId : String
  seenIds : List String
  isClosed : Bool

/-- The only exception the source ever throws: `subscribe` raises
`new Error('Topic ID ... not found')`. -/
inductive QueueError where
  | topicNotFound (id : Nat)
  deriving DecidableEq

/-- JS `Map.get`: the value stored at key `k`, if any. -/
def mapGet {κ ν : Type} [DecidableEq κ] (m : List (κ × ν)) (k : κ) : Option ν :=
  (m.find? fun e => decide (e.1 = k)).map fun e => e.2

/-- JS `Map.set`: update in place if the key is present (keeping its
position), else append at the end (a JS `Map` iterates in insertion order). -/
def mapSet {κ ν : Type} [DecidableEq κ] (m : List (κ × ν)) (k : κ) (v : ν) :
    List (κ × ν) :=
  if m.any fun e => decide (e.1 = k) then
    m.map fun e => if e.1 = k then (k, v) else e
  else m ++ [(k, v)]

/-- JS `Map.delete`: whether the key was present, and the map without it. -/
def mapDelete {κ ν : Type} [DecidableEq κ] (m : List (κ × ν)) (k : κ) :
    Bool × List (κ × ν) :=
  (m.any fun e => decide (e.1 = k), m.filter fun e => decide (e.1 ≠ k))

/-- JS `Set.add` on the seen-id set (no-op when already present). -/
def seenAdd (l : List String) (x : String) : List String :=
  if l.contains x then l else l ++ [x]

namespace MessageQueue

variable {π : Type}

/-- The constructor: fresh empty state; `channel` records whether a
`BroadcastChannel` was created (`channelName` supplied and the primitive
available); `clientId` is the generated UUID. -/
def init (clientId : String) (channel : Bool) : MessageQueue π :=
  { topics := [], topicIndex := [], channel := channel, clientId := clientId,
    seenIds := [], isClosed := false }

/-- Source `getTopic(id)`: `this.topics[id]`, which is `undefined` out of range. -/
def getTopic (s : MessageQueue π) (id : Nat) : Option (TopicState π) :=
  s.topics.get? id

/-- Source `registerTopic(name)`: return the existing ID when the name is indexed,
else append a fresh topic slot (ID = current array length) and index it. -/
def registerTopic (s : MessageQueue π) (name : String) : Nat × MessageQueue π :=
  match mapGet s.topicIndex name with
  | some id => (id, s)
  | none =>
    let id := s.topics.length
    let t : TopicState π :=
      { id := id, name := name, subscribers := [], buffer := none, nextSubId := 0 }
    (id, { s with topics := s.topics ++ [t], topicIndex := mapSet s.topicIndex name id })

/-- Source `subscribe(topicId, callback)`: throws when the topic ID is unknown,
else stores the callback under the next per-topic subscription ID. -/
def subscribe (s : MessageQueue π) (topicId : Nat) (cb : SubscriberCallback π) :
    Except QueueError (Nat × MessageQueue π) :=
  match s.getTopic topicId with
  | none => .error (.topicNotFound topicId)
  | some t =>
    let subId := t.nextSubId
    let t1 := { t with nextSubId := t.nextSubId + 1,
                       subscribers := mapSet t.subscribers subId cb }
    .ok (subId, { s with topics := s.topics.set topicId t1 })

/-- Source `unsubscribe(topicId, subId)`: false for an unknown topic, else
`Map.delete` on the subscriber table. -/
def unsubscribe (s : MessageQueue π) (topicId subId : Nat) :
    Bool × MessageQueue π :=
  match s.getTopic topicId with
  | none => (false, s)
  | some t =>
    let d := mapDelete t.subscribers subId
    (d.1, { s with topics := s.topics.set topicId { t with subscribers := d.2 } })

/-- Source `unsubscribeAll(topicId)`: 0 for an unknown topic, else clears the
subscriber table and returns how many entries it had. -/
def unsubscribeAll (s : MessageQueue π) (topicId : Nat) : Nat × MessageQueue π :=
  match s.getTopic topicId with
  | none => (0, s)
  | some t =>
    (t.subscribers.length,
     { s with topics := s.topics.set topicId { t with subscribers := [] } })

/-- Source `createMessage(topicId, payload)`: the environment supplies the fresh
UUID and the current time. -/
def createMessage (s : MessageQueue π) (topicId : Nat) (payload : π)
    (uuid : String) (now : Nat) : Message π :=
  { id := uuid, topic_id := topicId, origin_id := s.clientId,
    payload := payload, timestamp := now }

/-- The subscriber loop of `dispatchLocal`: invoke each callback in table
order with `(payload, topic_id, timestamp, id)`; a raised error is caught
and reported (`console.error`), and iteration continues. -/
def runSubscribers (subs : List (Nat × SubscriberCallback π)) (p : π)
    (tid ts : Nat) (mid : String) : List (Event π) :=
  match subs with
  | [] => []
  | (sid, cb) :: rest =>
    let tail := runSubscribers rest p tid ts mid
    match cb p tid ts mid with
    | .ok _ => .invoke sid p tid ts mid :: tail
    | .error e => .invoke sid p tid ts mid :: .cbError sid e :: tail

/-- Source `dispatchLocal(msg)`: no-op when closed; record the message ID in the
seen set; when the topic slot exists, push into its buffer (if enabled) and
notify the subscribers. -/
def dispatchLocal (s : MessageQueue π) (msg : Message π) :
    MessageQueue π × List (Event π) :=
  if s.isClosed then (s, [])
  else
    let s1 := { s with seenIds := seenAdd s.seenIds msg.id }
    match s1.topics.get? msg.topic_id with
    | none => (s1, [])
    | some t =>
      let t1 := match t.buffer with
        | some b => { t with buffer := some (b.push msg).2 }
        | none => t
      let ev := runSubscribers t1.subscribers msg.payload msg.topic_id
        msg.timestamp msg.id
      ({ s1 with topics := s1.topics.set msg.topic_id t1 }, ev)

/-- Source `broadcast(msg)`: when a channel is held and the instance is open,
post `[0, {...msg, topic_name}]`; an unknown topic posts nothing. -/
def broadcast (s : MessageQueue π) (msg : Message π) : List (Event π) :=
  if s.channel && !s.isClosed then
    match s.topics.get? msg.topic_id with
    | none => []
    | some t =>
      [.post 0 { id := msg.id, topic_id := msg.topic_id,
                 origin_id := msg.origin_id, payload := msg.payload,
                 timestamp := msg.timestamp, topic_name := t.name }]
  else []

/-- The body of `publish(topicId, payload)`: build the message, dispatch
locally, then mirror to the channel (reading the post-dispatch state). -/
def publishRun (s : MessageQueue π) (topicId : Nat) (payload : π)
    (uuid : String) (now : Nat) : MessageQueue π × List (Event π) :=
  let msg := s.createMessage topicId payload uuid now
  let r := s.dispatchLocal msg
  (r.1, r.2 ++ r.1.broadcast msg)

/-- Source `publish(topicId, payload)`: the source body contains no `throw` and
catches callback errors inside `dispatchLocal`, so it always returns. -/
def publish (s : MessageQueue π) (topicId : Nat) (payload : π)
    (uuid : String) (now : Nat) :
    Except QueueError (MessageQueue π × List (Event π)) :=
  .ok (s.publishRun topicId payload uuid now)

/-- Source `handleChannelMessage(event)` for a well-formed two-element array
`[kind, wire]`: ignore when closed or when `kind ≠ 0`; drop already-seen
IDs; record the ID; drop own-origin messages; else resolve the topic by
name (auto-registering it) and dispatch a reconstructed local message. -/
def handleChannelMessage (s : MessageQueue π) (kind : Nat) (w : WireMessage π) :
    MessageQueue π × List (Event π) :=
  if s.isClosed then (s, [])
  else if kind = 0 then
    if s.seenIds.contains w.id then (s, [])
    else
      let s1 := { s with seenIds := seenAdd s.seenIds w.id }
      if w.origin_id = s1.clientId then (s1, [])
      else
        let r := s1.registerTopic w.topic_name
        let msg : Message π :=
          { id := w.id, topic_id := r.1, origin_id := w.origin_id,
            payload := w.payload, timestamp := w.timestamp }
        r.2.dispatchLocal msg
  else (s, [])

/-- Source `subscriberCount(topicId)`. -/
def subscriberCount (s : MessageQueue π) (topicId : Nat) : Nat :=
  match s.getTopic topicId with
  | none => 0
  | some t => t.subscribers.length

/-- Source `destroyTopic(topicId)`: soft delete; clears subscribers and drops the
buffer but keeps the slot and the name index. -/
def destroyTopic (s : MessageQueue π) (topicId : Nat) : Bool × MessageQueue π :=
  match s.getTopic topicId with
  | none => (false, s)
  | some t =>
    (true,
     { s with
       topics := s.topics.set topicId { t with subscribers := [], buffer := none } })

/-- Source `close()`: mark closed, release the channel handle, clear every topic's
subscribers and buffer, then drop the topic array, the name index and the
seen set (the per-topic clearing is on state that is discarded right after,
so the net state is empty). -/
def close (s : MessageQueue π) : MessageQueue π :=
  { s with isClosed := true, channel := false, topics := [],
           topicIndex := [], seenIds := [] }

/-- Source `enableTopicBuffer(topicId, capacity)`: replace the topic's buffer with
a fresh `RingBuffer` of the given capacity (no-op on unknown topic). -/
def enableTopicBuffer (s : MessageQueue π) (topicId capacity : Nat) :
    MessageQueue π :=
  match s.getTopic topicId with
  | none => s
  | some t =>
    { s with
      topics := s.topics.set topicId { t with buffer := some (RingBuffer.new capacity) } }

/-- Source `enableTopicBuffer` with the default capacity argument (100). -/
def enableTopicBufferDefault (s : MessageQueue π) (topicId : Nat) :
    MessageQueue π :=
  s.enableTopicBuffer topicId 100

/-- Source `disableTopicBuffer(topicId)`. -/
def disableTopicBuffer (s : MessageQueue π) (topicId : Nat) : MessageQueue π :=
  match s.getTopic topicId with
  | none => s
  | some t => { s with topics := s.topics.set topicId { t with buffer := none } }

/-- Source `clearBuffer(topicId)`: number of cleared messages (0 when the topic or
its buffer is absent). -/
def clearBuffer (s : MessageQueue π) (topicId : Nat) : Nat × MessageQueue π :=
  match s.getTopic topicId with
  | none => (0, s)
  | some t =>
    match t.buffer with
    | none => (0, s)
    | some b =>
      let c := b.clear
      (c.1, { s with topics := s.topics.set topicId { t with buffer := some c.2 } })

/-- Source `getBufferedMessages(topicId)`: payloads of the buffered messages,
oldest to newest. -/
def getBufferedMessages (s : MessageQueue π) (topicId : Nat) : List π :=
  match s.getTopic topicId with
  | none => []
  | some t =>
    match t.buffer with
    | none => []
    | some b => b.getAll.map fun m => m.payload

/-- Source `getBufferSize(topicId)`. -/
def getBufferSize (s : MessageQueue π) (topicId : Nat) : Nat :=
  match s.getTopic topicId with
  | none => 0
  | some t =>
    match t.buffer with
    | none => 0
    | some b => b.len

/-- Source `getBufferCapacity(topicId)`. -/
def getBufferCapacity (s : MessageQueue π) (topicId : Nat) : Nat :=
  match s.getTopic topicId with
  | none => 0
  | some t =>
    match t.buffer with
    | none => 0
    | some b => b.getCapacity

/-- Source `hasBuffer(topicId)`. -/
def hasBuffer (s : MessageQueue π) (topicId : Nat) : Bool :=
  match s.getTopic topicId with
  | none => false
  | some t => t.buffer.isSome

end MessageQueue

/-- The subscriber-invocation events of a trace, in order, as
`(subId, payload, topicId, timestamp, msgId)` tuples. -/
def invocations {π : Type} : List (Event π) → List (Nat × π × Nat × Nat × String)
  | [] => []
  | .invoke sid p tid ts mid :: rest => (sid, p, tid, ts, mid) :: invocations rest
  | .cbError _ _ :: rest => invocations rest
  | .post _ _ :: rest => invocations rest

/-- Whether an event is a `postMessage` on the broadcast channel. -/
def isPost {π : Type} : Event π → Bool
  | .post _ _ => true
  | _ => false

/-- The registration sequence of the specification: register each name in
order, collecting the returned IDs. -/
def MessageQueue.regIds {π : Type} (s : MessageQueue π) :
    List String → List Nat × MessageQueue π
  | [] => ([], s)
  | n :: rest =>
    let r := s.registerTopic n
    let r2 := r.2.regIds rest
    (r.1 :: r2.1, r2.2)

/-- A concrete callback that always returns (for concrete evaluations). -/
def cbOk : SubscriberCallback Nat := fun _ _ _ _ => .ok ()

/-- A concrete callback that always raises (for concrete evaluations). -/
def cbBad : SubscriberCallback Nat := fun _ _ _ _ => .error "boom"

/-- A concrete fresh instance with a channel and no topics. -/
def sampleEmpty : MessageQueue Nat := MessageQueue.init "A" true

/-- A concrete instance with one topic `t` holding two subscribers. -/
def sampleTopic : MessageQueue Nat :=
  { topics := [{ id := 0, name := "t", subscribers := [(0, cbOk), (1, cbOk)],
                 buffer := none, nextSubId := 2 }]
    topicIndex := [("t", 0)]
    channel := true
    clientId := "A"
    seenIds := []
    isClosed := false }

/-- A concrete instance whose middle subscriber raises an error. -/
def sampleTopicErr : MessageQueue Nat :=
  { topics := [{ id := 0, name := "t", subscribers := [(0, cbOk), (1, cbBad), (2, cbOk)],
                 buffer := none, nextSubId := 3 }]
    topicIndex := [("t", 0)]
    channel := false
    clientId := "A"
    seenIds := []
    isClosed := false }

/-- A concrete instance with one topic `t` whose buffer (capacity 5) holds
one message. -/
def sampleBuffered : MessageQueue Nat :=
  { topics := [{ id := 0, name := "t", subscribers := []
                 buffer := some ((RingBuffer.new 5).push
                   { id := "m0", topic_id := 0, origin_id := "A",
                     payload := 7, timestamp := 1 }).2
                 nextSubId := 0 }]
    topicIndex := [("t", 0)]
    channel := false
    clientId := "A"
    seenIds := ["m0"]
    isClosed := false }

namespace RingBuffer

theorem represents_new (C : Nat) (hC : 0 < C) : Represents (new (α := α) C) [] := by
  refine ⟨?_, rfl, Nat.zero_le _, hC, hC, ?_, ?_⟩
  · simp [new]
  · simp [new]
  · intro i hi; simp at hi

private theorem add_mod_inj {C f i j : Nat} (hi : i < C) (hj : j < C)
    (h : (f + i) % C = (f + j) % C) : i = j := by
  have h2 : i ≡ j [MOD C] := Nat.ModEq.add_left_cancel' f h
  have h3 : i % C = j % C := h2
  rwa [Nat.mod_eq_of_lt hi, Nat.mod_eq_of_lt hj] at h3

private theorem getD_set_self {l : List (Option α)} {i : Nat} (h : i < l.length)
    (v : Option α) : (l.set i v).getD i none = v := by
  rw [List.getD_eq_getD_get?, List.get?_set_eq_of_lt _ h]
  rfl

private theorem getD_set_ne {l : List (Option α)} {i j : Nat} (h : i ≠ j)
    (v : Option α) : (l.set i v).getD j none = l.getD j none := by
  rw [List.getD_eq_getD_get?, List.get?_set_ne _ _ h, List.getD_eq_getD_get?]

theorem push_spec_not_full {b : RingBuffer α} {l : List α} (hr : Represents b l)
    (hlt : l.length < b.capacity) (x : α) :
    (b.push x).1 = none ∧ (b.push x).2.capacity = b.capacity ∧
      Represents (b.push x).2 (l ++ [x]) := by
  have hC0 : b.capacity ≠ 0 := Nat.pos_iff_ne_zero.mp hr.hpos
  have hfull : b.isFull = false := by
    simp only [isFull, beq_eq_false_iff_ne, ne_eq, hr.hsize]
    omega
  have hrearlt : b.rear < b.capacity := by
    rw [hr.hrear]; exact Nat.mod_lt _ hr.hpos
  have hpush : b.push x = (none,
      { buffer := b.buffer.set b.rear (some x), capacity := b.capacity,
        size := b.size + 1, front := b.front, rear := (b.rear + 1) % b.capacity }) := by
    simp [push, hC0, hfull]
  rw [hpush]
  refine ⟨rfl, rfl, ?_, ?_, ?_, hr.hpos, hr.hfront, ?_, ?_⟩
  · simpa using hr.hbuf
  · simp [hr.hsize]
  · simpa using hlt
  · simp only [hr.hrear, hr.hsize]
    rw [Nat.mod_add_mod, Nat.add_assoc]
  · intro i hi
    simp only [List.length_append, List.length_cons, List.length_nil] at hi
    rcases Nat.lt_or_ge i l.length with hcase | hcase
    · have hne : b.rear ≠ (b.front + i) % b.capacity := by
        intro hcon
        rw [hr.hrear, hr.hsize] at hcon
        have := add_mod_inj hlt (by omega) hcon
        omega
      rw [getD_set_ne hne, hr.hwin i hcase, List.get?_append hcase]
    · have hieq : i = l.length := by omega
      subst hieq
      have hpos : (b.front + l.length) % b.capacity = b.rear := (hr.hsize ▸ hr.hrear).symm
      rw [hpos, getD_set_self (by rw [hr.hbuf]; exact hrearlt), List.get?_concat_length]

theorem push_spec_full {b : RingBuffer α} {l : List α} (hr : Represents b l)
    (heq : l.length = b.capacity) (x : α) :
    (b.push x).1 = l.head? ∧ (b.push x).2.capacity = b.capacity ∧
      Represents (b.push x).2 (l.tail ++ [x]) := by
  obtain ⟨a, t, rfl⟩ : ∃ a t, l = a :: t := by
    cases l with
    | nil =>
      exfalso
      have := hr.hpos
      simp only [List.length_nil] at heq
      omega
    | cons a t => exact ⟨a, t, rfl⟩
  simp only [List.tail_cons, List.head?_cons]
  have hC0 : b.capacity ≠ 0 := Nat.pos_iff_ne_zero.mp hr.hpos
  have hlen : t.length + 1 = b.capacity := by simpa using heq
  have hfull : b.isFull = true := by
    simp [isFull, hr.hsize, heq]
  have hfr : (b.front + 0) % b.capacity = b.front := by
    rw [Nat.add_zero, Nat.mod_eq_of_lt hr.hfront]
  have hdisp : b.buffer.getD b.front none = some a := by
    have hw := hr.hwin 0 (by simp)
    rw [hfr] at hw
    simpa using hw
  have hdisp2 : (b.buffer[b.front]?).getD none = some a := by
    rw [← List.get?_eq_getElem?, ← List.getD_eq_getD_get?]
    exact hdisp
  have hrearfr : b.rear = b.front := by
    rw [hr.hrear, hr.hsize, heq, Nat.add_mod_right, Nat.mod_eq_of_lt hr.hfront]
  have hpush : b.push x = (some a,
      { buffer := b.buffer.set b.front (some x), capacity := b.capacity,
        size := b.size, front := (b.front + 1) % b.capacity,
        rear := (b.rear + 1) % b.capacity }) := by
    simp [push, hC0, hfull, hdisp, hdisp2, hrearfr, List.set_set,
      List.get?_eq_getElem?]
  rw [hpush]
  dsimp only
  refine ⟨rfl, rfl, ?_, ?_, ?_, hr.hpos, Nat.mod_lt _ hr.hpos, ?_, ?_⟩
  · simpa using hr.hbuf
  · simp [hr.hsize]
  · simp only [List.length_append, List.length_cons, List.length_nil]
    omega
  · rw [hrearfr, hr.hsize, heq, Nat.add_mod_right,
      Nat.mod_eq_of_lt (Nat.mod_lt _ hr.hpos)]
  · intro i hi
    dsimp only
    simp only [List.length_append, List.length_cons, List.length_nil] at hi
    rw [Nat.mod_add_mod]
    rcases Nat.lt_or_ge i t.length with hcase | hcase
    · have hne : b.front ≠ (b.front + (1 + i)) % b.capacity := by
        intro hcon
        have h0 : (b.front + 0) % b.capacity = (b.front + (1 + i)) % b.capacity := by
          rw [hfr]; exact hcon
        have := add_mod_inj hr.hpos (by omega) h0
        omega
      rw [Nat.add_assoc, getD_set_ne hne]
      have hw := hr.hwin (1 + i) (by simp only [List.length_cons]; omega)
      rw [hw, Nat.add_comm 1 i, List.get?_cons_succ, List.get?_append hcase]
    · have hieq : i = t.length := by omega
      subst hieq
      have harith : b.front + 1 + t.length = b.front + b.capacity := by omega
      rw [harith, Nat.add_mod_right, Nat.mod_eq_of_lt hr.hfront,
        getD_set_self (by rw [hr.hbuf]; exact hr.hfront) (some x),
        List.get?_concat_length]

theorem getAllLoop_spec {buf : List (Option α)} {C : Nat} :
    ∀ (l : List α) (f : Nat), f < C →
      (∀ i, i < l.length → buf.getD ((f + i) % C) none = l.get? i) →
      getAllLoop buf C f l.length = l := by
  intro l
  induction l with
  | nil => intro f _ _; rfl
  | cons a t ih =>
    intro f hf hw
    have hC : 0 < C := Nat.lt_of_le_of_lt (Nat.zero_le _) hf
    have h0 := hw 0 (by simp)
    rw [Nat.add_zero, Nat.mod_eq_of_lt hf, List.get?_cons_zero] at h0
    show getAllLoop buf C f (t.length + 1) = a :: t
    rw [getAllLoop, h0]
    show a :: getAllLoop buf C ((f + 1) % C) t.length = a :: t
    congr 1
    refine ih ((f + 1) % C) (Nat.mod_lt _ hC) ?_
    intro i hi
    have h1 := hw (i + 1) (by simp only [List.length_cons]; omega)
    rw [List.get?_cons_succ] at h1
    rw [Nat.mod_add_mod, Nat.add_assoc, Nat.add_comm 1 i]
    exact h1

theorem getAll_eq_of_represents {b : RingBuffer α} {l : List α}
    (hr : Represents b l) : b.getAll = l := by
  cases l with
  | nil => simp [getAll, isEmpty, hr.hsize]
  | cons a t =>
    have hne : b.isEmpty = false := by simp [isEmpty, hr.hsize]
    rw [getAll, hne]
    simp only [Bool.false_eq_true, if_false]
    rw [hr.hsize]
    exact getAllLoop_spec (a :: t) b.front hr.hfront hr.hwin

theorem push_of_capacity_zero {b : RingBuffer α} (h : b.capacity = 0) (x : α) :
    b.push x = (some x, b) := by
  simp [push, h]

theorem pushAll_of_capacity_zero {b : RingBuffer α} (h : b.capacity = 0) :
    ∀ xs : List α, pushAll b xs = b := by
  intro xs
  induction xs with
  | nil => rfl
  | cons x xs ih =>
    simp only [pushAll, List.foldl_cons] at *
    rw [push_of_capacity_zero h x]
    exact ih

theorem pushAll_represents {C : Nat} :
    ∀ (xs : List α) (b : RingBuffer α) (l : List α), b.capacity = C →
      Represents b l →
      (pushAll b xs).capacity = C ∧ Represents (pushAll b xs) (lastN C (l ++ xs)) := by
  intro xs
  induction xs with
  | nil =>
    intro b l hcap hr
    refine ⟨hcap, ?_⟩
    simp only [pushAll, List.foldl_nil, List.append_nil]
    have hlast : lastN C l = l := by
      rw [lastN, Nat.sub_eq_zero_of_le (hcap ▸ hr.hle), List.drop_zero]
    rw [hlast]
    exact hr
  | cons x xs ih =>
    intro b l hcap hr
    have hstep : pushAll b (x :: xs) = pushAll (b.push x).2 xs := by
      simp only [pushAll, List.foldl_cons]
    rw [hstep]
    rcases Nat.lt_or_ge l.length b.capacity with hlt | hge
    · obtain ⟨-, hcap', hr'⟩ := push_spec_not_full hr hlt x
      obtain ⟨h1, h2⟩ := ih (b.push x).2 (l ++ [x]) (hcap'.trans hcap) hr'
      rw [List.append_assoc, List.singleton_append] at h2
      exact ⟨h1, h2⟩
    · have heq : l.length = b.capacity := Nat.le_antisymm hr.hle hge
      obtain ⟨a, t, rfl⟩ : ∃ a t, l = a :: t := by
        cases l with
        | nil =>
          exfalso
          have := hr.hpos
          simp only [List.length_nil] at heq
          omega
        | cons a t => exact ⟨a, t, rfl⟩
      obtain ⟨-, hcap', hr'⟩ := push_spec_full hr heq x
      rw [List.tail_cons] at hr'
      obtain ⟨h1, h2⟩ := ih (b.push x).2 (t ++ [x]) (hcap'.trans hcap) hr'
      rw [List.append_assoc, List.singleton_append] at h2
      refine ⟨h1, ?_⟩
      have hClen : t.length + 1 = C := by
        have := heq
        simp only [List.length_cons] at this
        omega
      have hge2 : C ≤ (t ++ x :: xs).length := by
        simp only [List.length_append, List.length_cons]
        omega
      have hdropone : lastN C ((a :: t) ++ x :: xs) = lastN C (t ++ x :: xs) := by
        show lastN C (a :: (t ++ x :: xs)) = lastN C (t ++ x :: xs)
        rw [lastN, lastN]
        simp only [List.length_cons]
        have harith : (t ++ x :: xs).length + 1 - C = ((t ++ x :: xs).length - C) + 1 := by
          omega
        rw [harith, List.drop_succ_cons]
      rw [hdropone]
      exact h2

end RingBuffer

open RingBuffer

/-- C2: for every capacity `C ≥ 0` and every sequence of `n` pushes into a
`RingBuffer` of capacity `C`, after all pushes the snapshot (`getAll`) has
length `min n C` and equals the last `C` pushed items in push order
(`lastN C xs = xs.drop (xs.length - C)`); for `C = 0` every push returns its
own item as evicted and the snapshot stays empty; for `C > 0` a push onto a
full buffer returns exactly the oldest stored item (the head of the
snapshot). -/
theorem ringBuffer_push_sequence_spec (C : Nat) (xs : List α) (x : α) :
    ((new (α := α) C).pushAll xs).getAll = lastN C xs ∧
    ((new (α := α) C).pushAll xs).getAll.length = min xs.length C ∧
    (C = 0 → ((new (α := α) C).pushAll xs).push x = (some x, (new (α := α) C).pushAll xs) ∧
      ((new (α := α) C).pushAll xs).getAll = []) ∧
    (0 < C → ((new (α := α) C).pushAll xs).isFull = true →
      (((new (α := α) C).pushAll xs).push x).1 = ((new (α := α) C).pushAll xs).getAll.head?) := by
  rcases Nat.eq_zero_or_pos C with hC | hC
  · subst hC
    have hz : (new (α := α) 0).capacity = 0 := rfl
    rw [pushAll_of_capacity_zero hz xs]
    refine ⟨?_, ?_, ?_, ?_⟩
    · show ([] : List α) = lastN 0 xs
      rw [lastN, Nat.sub_zero, List.drop_length]
    · show ([] : List α).length = min xs.length 0
      simp
    · intro _
      exact ⟨push_of_capacity_zero hz x, rfl⟩
    · intro h _
      exact absurd h (by omega)
  · obtain ⟨hcap, hrep⟩ := pushAll_represents (C := C) xs (new C) [] rfl (represents_new C hC)
    rw [List.nil_append] at hrep
    have hget := getAll_eq_of_represents hrep
    refine ⟨hget, ?_, ?_, ?_⟩
    · rw [hget, lastN, List.length_drop]
      omega
    · intro h
      omega
    · intro _ hfull
      have hsz : ((new (α := α) C).pushAll xs).size = ((new (α := α) C).pushAll xs).capacity := by
        simpa [isFull] using hfull

      have hlenC : (lastN C xs).length = ((new (α := α) C).pushAll xs).capacity := by
        rw [← hrep.hsize]
        exact hsz
      rw [hget]
      exact (push_spec_full hrep hlenC x).1

theorem set_get?_self {τ : Type} :
    ∀ (l : List τ) (i : Nat) (a : τ), l.get? i = some a → l.set i a = l := by
  intro l
  induction l with
  | nil => intro i a h; cases h
  | cons x t ih =>
    intro i a h
    cases i with
    | zero =>
      simp only [List.get?_cons_zero, Option.some.injEq] at h
      rw [List.set_cons_zero, h]
    | succ j =>
      simp only [List.get?_cons_succ] at h
      rw [List.set_cons_succ, ih j a h]

theorem mapGet_nil {κ ν : Type} [DecidableEq κ] (k : κ) :
    mapGet ([] : List (κ × ν)) k = none := rfl

private theorem mapGet_map_update {κ ν : Type} [DecidableEq κ] (k : κ) (v : ν) :
    ∀ m : List (κ × ν), (m.any fun e => decide (e.1 = k)) = true →
      mapGet (m.map fun e => if e.1 = k then (k, v) else e) k = some v := by
  intro m
  induction m with
  | nil => intro h; cases h
  | cons e t ih =>
    intro h
    by_cases he : e.1 = k
    · simp [mapGet, List.find?, he]
    · simp only [List.any_cons, Bool.or_eq_true, decide_eq_true_eq] at h
      rcases h with h | h
      · exact absurd h he
      · rw [List.map_cons, if_neg he, mapGet, List.find?]
        have hd : decide (e.1 = k) = false := decide_eq_false he
        rw [hd]
        exact ih h

private theorem mapGet_append_fresh {κ ν : Type} [DecidableEq κ] (k : κ) (v : ν) :
    ∀ m : List (κ × ν), (m.any fun e => decide (e.1 = k)) = false →
      mapGet (m ++ [(k, v)]) k = some v := by
  intro m
  induction m with
  | nil => intro _; simp [mapGet, List.find?]
  | cons e t ih =>
    intro h
    simp only [List.any_cons, Bool.or_eq_false_iff, decide_eq_false_iff_not] at h
    rw [List.cons_append, mapGet, List.find?]
    have hd : decide (e.1 = k) = false := decide_eq_false h.1
    rw [hd]
    exact ih h.2

theorem mapGet_mapSet_self {κ ν : Type} [DecidableEq κ]
    (m : List (κ × ν)) (k : κ) (v : ν) : mapGet (mapSet m k v) k = some v := by
  rw [mapSet]
  split
  case isTrue h => exact mapGet_map_update k v m h
  case isFalse h => exact mapGet_append_fresh k v m (Bool.eq_false_iff.mpr h)

private theorem mapGet_map_update_ne {κ ν : Type} [DecidableEq κ] {j k : κ}
    (hne : j ≠ k) (v : ν) :
    ∀ m : List (κ × ν),
      mapGet (m.map fun e => if e.1 = k then (k, v) else e) j = mapGet m j := by
  intro m
  induction m with
  | nil => rfl
  | cons e t ih =>
    by_cases he : e.1 = k
    · rw [List.map_cons, if_pos he, mapGet, List.find?, mapGet, List.find?]
      have h1 : decide ((k, v).1 = j) = false := decide_eq_false fun hc => hne hc.symm
      have h2 : decide (e.1 = j) = false := by
        rw [he]; exact decide_eq_false fun hc => hne hc.symm
      rw [h1, h2]
      exact ih
    · rw [List.map_cons, if_neg he, mapGet, List.find?, mapGet, List.find?]
      cases hd : decide (e.1 = j) with
      | true => rfl
      | false => exact ih

private theorem mapGet_append_ne {κ ν : Type} [DecidableEq κ] {j k : κ}
    (hne : j ≠ k) (v : ν) :
    ∀ m : List (κ × ν), mapGet (m ++ [(k, v)]) j = mapGet m j := by
  intro m
  induction m with
  | nil =>
    rw [List.nil_append, mapGet, List.find?]
    have h1 : decide ((k, v).1 = j) = false := decide_eq_false fun hc => hne hc.symm
    rw [h1]
    rfl
  | cons e t ih =>
    rw [List.cons_append, mapGet, List.find?, mapGet, List.find?]
    cases hd : decide (e.1 = j) with
    | true => rfl
    | false => exact ih

theorem mapGet_mapSet_ne {κ ν : Type} [DecidableEq κ] {j k : κ} (hne : j ≠ k)
    (m : List (κ × ν)) (v : ν) : mapGet (mapSet m k v) j = mapGet m j := by
  rw [mapSet]
  split
  · exact mapGet_map_update_ne hne v m
  · exact mapGet_append_ne hne v m

theorem invocations_append {π : Type} (ev1 ev2 : List (Event π)) :
    invocations (ev1 ++ ev2) = invocations ev1 ++ invocations ev2 := by
  induction ev1 with
  | nil => rfl
  | cons e t ih =>
    cases e with
    | invoke sid p tid ts mid => simp [invocations, ih]
    | cbError sid err => simp [invocations, ih]
    | post k w => simp [invocations, ih]

theorem invocations_runSubscribers {π : Type}
    (subs : List (Nat × SubscriberCallback π)) (p : π) (tid ts : Nat) (mid : String) :
    invocations (MessageQueue.runSubscribers subs p tid ts mid) =
      subs.map fun sc => (sc.1, p, tid, ts, mid) := by
  induction subs with
  | nil => rfl
  | cons sc rest ih =>
    obtain ⟨sid, cb⟩ := sc
    rw [MessageQueue.runSubscribers]
    cases cb p tid ts mid with
    | ok u => simp only [invocations, List.map_cons, ih]
    | error e => simp only [invocations, List.map_cons, ih]

theorem invocations_broadcast {π : Type} (s : MessageQueue π) (m : Message π) :
    invocations (s.broadcast m) = [] := by
  rw [MessageQueue.broadcast]
  split
  · split
    · rfl
    · rfl
  · rfl

theorem runSubscribers_no_post {π : Type}
    (subs : List (Nat × SubscriberCallback π)) (p : π) (tid ts : Nat) (mid : String) :
    ((MessageQueue.runSubscribers subs p tid ts mid).all fun e => !isPost e) = true := by
  induction subs with
  | nil => rfl
  | cons sc rest ih =>
    obtain ⟨sid, cb⟩ := sc
    rw [MessageQueue.runSubscribers]
    cases cb p tid ts mid with
    | ok u => simpa [isPost] using ih
    | error e => simpa [isPost] using ih

theorem dispatchLocal_no_post {π : Type} (s : MessageQueue π) (m : Message π) :
    ((s.dispatchLocal m).2.all fun e => !isPost e) = true := by
  rw [MessageQueue.dispatchLocal]
  split
  · rfl
  · dsimp only
    split
    · rfl
    · dsimp only
      exact runSubscribers_no_post _ _ _ _ _

theorem broadcast_eq_nil_of_unknown {π : Type} (s : MessageQueue π)
    (m : Message π) (h : s.topics.get? m.topic_id = none) : s.broadcast m = [] := by
  rw [MessageQueue.broadcast]
  split
  · rw [h]
  · rfl

theorem dispatchLocal_unknown {π : Type} (s : MessageQueue π) (m : Message π)
    (hopen : s.isClosed = false) (h : s.topics.get? m.topic_id = none) :
    s.dispatchLocal m = ({ s with seenIds := seenAdd s.seenIds m.id }, []) := by
  rw [MessageQueue.dispatchLocal, hopen, if_neg Bool.false_ne_true]
  dsimp only
  rw [h]

theorem registerTopic_of_found {π : Type} {s : MessageQueue π} {name : String}
    {id : Nat} (h : mapGet s.topicIndex name = some id) :
    s.registerTopic name = (id, s) := by
  rw [MessageQueue.registerTopic, h]

theorem registerTopic_fresh {π : Type} {s : MessageQueue π} {name : String}
    (h : mapGet s.topicIndex name = none) :
    s.registerTopic name =
      (s.topics.length,
       { s with
         topics := s.topics ++ [{ id := s.topics.length, name := name, subscribers := [], buffer := none, nextSubId := 0 }]
         topicIndex := mapSet s.topicIndex name s.topics.length }) := by
  rw [MessageQueue.registerTopic, h]

theorem registerTopic_topicIndex_get {π : Type} (s : MessageQueue π)
    (name : String) :
    mapGet (s.registerTopic name).2.topicIndex name =
      some (s.registerTopic name).1 := by
  cases hm : mapGet s.topicIndex name with
  | some id =>
    rw [MessageQueue.registerTopic, hm]
    exact hm
  | none =>
    rw [MessageQueue.registerTopic, hm]
    exact mapGet_mapSet_self _ _ _

theorem destroyTopic_topicIndex {π : Type} (s : MessageQueue π) (tid : Nat) :
    (s.destroyTopic tid).2.topicIndex = s.topicIndex := by
  rw [MessageQueue.destroyTopic]
  cases h : s.getTopic tid <;> rfl

theorem regIds_range {π : Type} :
    ∀ (names : List String) (s : MessageQueue π), names.Nodup →
      (∀ n ∈ names, mapGet s.topicIndex n = none) →
      (s.regIds names).1 = List.range' s.topics.length names.length := by
  intro names
  induction names with
  | nil => intro s _ _; rfl
  | cons n rest ih =>
    intro s hnd hfresh
    have hn : mapGet s.topicIndex n = none := hfresh n (List.mem_cons_self _ _)
    rw [MessageQueue.regIds, registerTopic_fresh hn]
    dsimp only
    have hrest : ∀ m ∈ rest,
        mapGet (mapSet s.topicIndex n s.topics.length) m = none := by
      intro m hm
      have hmn : m ≠ n := by
        intro hcon
        subst hcon
        exact (List.nodup_cons.mp hnd).1 hm
      rw [mapGet_mapSet_ne hmn]
      exact hfresh m (List.mem_cons_of_mem _ hm)
    have hih := ih
      ({ s with
         topics := s.topics ++ [{ id := s.topics.length, name := n, subscribers := [], buffer := none, nextSubId := 0 }]
         topicIndex := mapSet s.topicIndex n s.topics.length })
      (List.nodup_cons.mp hnd).2 hrest
    dsimp only at hih
    simp only [List.length_append, List.length_cons, List.length_nil] at hih
    rw [hih, List.length_cons, List.range'_succ]

/-- C1 counterexample: on a fresh instance with no registered topics,
`publish(0, 42)` does not raise `TopicNotFound` — it returns normally — and
the instance state is not unchanged: the generated message id is added to
the seen-id set. -/
theorem publish_unknown_counterexample :
    MessageQueue.publish sampleEmpty 0 (42 : Nat) "m1" 5 =
      Except.ok ({ sampleEmpty with seenIds := ["m1"] }, ([] : List (Event Nat))) ∧
    ({ sampleEmpty with seenIds := ["m1"] } : MessageQueue Nat).seenIds ≠
      sampleEmpty.seenIds := by
  constructor
  · rfl
  · simp [sampleEmpty, MessageQueue.init]

/-- C1 (amended): on an open instance, `publish` to an unregistered topic
id raises no error and performs no dispatch (no callback invocation, no
buffer push — the topic table is untouched) and no broadcast (the event
trace is empty); the only state change is the generated message id being
added to the seen-id set. -/
theorem publish_unknown_topic_amended {π : Type} (s : MessageQueue π)
    (tid : Nat) (p : π) (uuid : String) (now : Nat)
    (hnone : s.topics.get? tid = none) (hopen : s.isClosed = false) :
    s.publish tid p uuid now =
      Except.ok ({ s with seenIds := seenAdd s.seenIds uuid }, []) := by
  have hd := dispatchLocal_unknown s (s.createMessage tid p uuid now) hopen hnone
  have hb := broadcast_eq_nil_of_unknown
    { s with seenIds := seenAdd s.seenIds (s.createMessage tid p uuid now).id }
    (s.createMessage tid p uuid now) hnone
  rw [MessageQueue.publish, MessageQueue.publishRun, hd]
  dsimp only
  rw [hb]
  rfl

/-- Witness for the amended C1 at a concrete fresh instance. -/
theorem publish_unknown_topic_amended_witness :
    sampleEmpty.topics.get? 3 = none ∧ sampleEmpty.isClosed = false ∧
    MessageQueue.publish sampleEmpty 3 (0 : Nat) "u" 9 =
      Except.ok ({ sampleEmpty with seenIds := ["u"] }, []) := by
  refine ⟨rfl, rfl, ?_⟩
  have h := publish_unknown_topic_amended sampleEmpty 3 (0 : Nat) "u" 9 rfl rfl
  rw [h]
  rfl

/-- C5: `register_topic` is idempotent — a second registration of the same
name returns the same ID and leaves the state unchanged, also right after
`destroy_topic` of that topic — and registering pairwise distinct names on
a fresh instance yields the dense IDs 0, 1, 2, … in registration order. -/
theorem registerTopic_idempotent_dense {π : Type} (s : MessageQueue π)
    (name cid : String) (ch : Bool) (names : List String)
    (hnd : names.Nodup) :
    (s.registerTopic name).2.registerTopic name =
      ((s.registerTopic name).1, (s.registerTopic name).2) ∧
    (((s.registerTopic name).2.destroyTopic
        (s.registerTopic name).1).2.registerTopic name).1 =
      (s.registerTopic name).1 ∧
    ((MessageQueue.init (π := π) cid ch).regIds names).1 =
      List.range names.length := by
  refine ⟨?_, ?_, ?_⟩
  · exact registerTopic_of_found (registerTopic_topicIndex_get s name)
  · have hidx : mapGet ((s.registerTopic name).2.destroyTopic
        (s.registerTopic name).1).2.topicIndex name =
        some (s.registerTopic name).1 := by
      rw [destroyTopic_topicIndex]
      exact registerTopic_topicIndex_get s name
    rw [registerTopic_of_found hidx]
  · have h := regIds_range names (MessageQueue.init (π := π) cid ch) hnd
      (by intro n _; rfl)
    rw [h]
    exact (List.range_eq_range' names.length).symm

/-- Witness for C5 at concrete states and names. -/
theorem registerTopic_idempotent_dense_witness :
    (["a", "b", "c"] : List String).Nodup ∧
    ((MessageQueue.init (π := Nat) "B" false).regIds ["a", "b", "c"]).1 =
      [0, 1, 2] ∧
    (sampleTopic.registerTopic "t").2.registerTopic "t" =
      ((sampleTopic.registerTopic "t").1, (sampleTopic.registerTopic "t").2) := by
  have h := registerTopic_idempotent_dense sampleTopic "t" "B" false
    ["a", "b", "c"] (by decide)
  refine ⟨by decide, ?_, h.1⟩
  rw [h.2.2]
  decide

/-- C8: for an unknown (out-of-range) topic id, `unsubscribe` and
`destroy_topic` return false, `unsubscribe_all`, `clear_buffer`,
`buffer_size` and `buffer_capacity` return 0, and `buffered_messages`
returns the empty list — none raises `TopicNotFound` (they are all total)
and none changes the state; `unsubscribe` with an unknown subscription id
on a known topic also returns false without side effects. -/
theorem unknown_topic_noop_queries {π : Type} (s : MessageQueue π)
    (tid sub : Nat) :
    (s.topics.get? tid = none →
      s.unsubscribe tid sub = (false, s) ∧
      s.destroyTopic tid = (false, s) ∧
      s.unsubscribeAll tid = (0, s) ∧
      s.clearBuffer tid = (0, s) ∧
      s.getBufferSize tid = 0 ∧
      s.getBufferCapacity tid = 0 ∧
      s.getBufferedMessages tid = []) ∧
    (∀ t, s.topics.get? tid = some t →
      (t.subscribers.any fun e => decide (e.1 = sub)) = false →
      s.unsubscribe tid sub = (false, s)) := by
  constructor
  · intro h
    refine ⟨?_, ?_, ?_, ?_, ?_, ?_, ?_⟩
    · rw [MessageQueue.unsubscribe, MessageQueue.getTopic, h]
    · rw [MessageQueue.destroyTopic, MessageQueue.getTopic, h]
    · rw [MessageQueue.unsubscribeAll, MessageQueue.getTopic, h]
    · rw [MessageQueue.clearBuffer, MessageQueue.getTopic, h]
    · rw [MessageQueue.getBufferSize, MessageQueue.getTopic, h]
    · rw [MessageQueue.getBufferCapacity, MessageQueue.getTopic, h]
    · rw [MessageQueue.getBufferedMessages, MessageQueue.getTopic, h]
  · intro t ht hfind
    rw [MessageQueue.unsubscribe, MessageQueue.getTopic, ht]
    dsimp only [mapDelete]
    rw [hfind]
    have hfilter : (t.subscribers.filter fun e => decide (e.1 ≠ sub)) =
        t.subscribers := by
      rw [List.filter_eq_self]
      intro a ha
      have hne := List.any_eq_false.mp hfind a ha
      simp only [decide_eq_true_eq] at hne ⊢
      exact hne
    rw [hfilter]
    have hset : s.topics.set tid { t with subscribers := t.subscribers } =
        s.topics := set_get?_self _ _ _ ht
    rw [hset]

/-- Witness for C8 at a concrete state: topic id 5 is out of range, and
subscription id 99 is unknown on the registered topic 0. -/
theorem unknown_topic_noop_queries_witness :
    sampleTopic.topics.get? 5 = none ∧
    sampleTopic.unsubscribe 5 0 = (false, sampleTopic) ∧
    sampleTopic.destroyTopic 5 = (false, sampleTopic) ∧
    sampleTopic.getBufferedMessages 5 = [] ∧
    sampleTopic.unsubscribe 0 99 = (false, sampleTopic) := by
  have h1 := (unknown_topic_noop_queries sampleTopic 5 0).1 rfl
  have h2 := (unknown_topic_noop_queries sampleTopic 0 99).2
    { id := 0, name := "t", subscribers := [(0, cbOk), (1, cbOk)],
      buffer := none, nextSubId := 2 } rfl (by decide)
  exact ⟨rfl, h1.1, h1.2.1, h1.2.2.2.2.2.2, h2⟩

/-- C9: `destroy_topic` on a registered slot is a soft delete: it returns
true, clears that topic's subscribers and discards its buffer, leaves the
name-to-ID index untouched and leaves every other topic slot unchanged;
on an out-of-range id it returns false and changes nothing. -/
theorem destroyTopic_soft_delete {π : Type} (s : MessageQueue π) (tid : Nat) :
    (s.topics.get? tid = none → s.destroyTopic tid = (false, s)) ∧
    (∀ t, s.topics.get? tid = some t →
      (s.destroyTopic tid).1 = true ∧
      (s.destroyTopic tid).2.topics.get? tid =
        some { t with subscribers := [], buffer := none } ∧
      (s.destroyTopic tid).2.topicIndex = s.topicIndex ∧
      (∀ j, j ≠ tid → (s.destroyTopic tid).2.topics.get? j = s.topics.get? j) ∧
      (s.destroyTopic tid).2.seenIds = s.seenIds ∧
      (s.destroyTopic tid).2.isClosed = s.isClosed) := by
  constructor
  · intro h
    rw [MessageQueue.destroyTopic, MessageQueue.getTopic, h]
  · intro t ht
    rw [MessageQueue.destroyTopic, MessageQueue.getTopic, ht]
    refine ⟨rfl, ?_, rfl, ?_, rfl, rfl⟩
    · dsimp only
      rw [List.get?_set_eq, ht]
      rfl
    · intro j hj
      dsimp only
      rw [List.get?_set_ne _ _ fun hc => hj hc.symm]

/-- Witness for C9 at a concrete state. -/
theorem destroyTopic_soft_delete_witness :
    sampleTopic.destroyTopic 7 = (false, sampleTopic) ∧
    (sampleTopic.destroyTopic 0).1 = true ∧
    (sampleTopic.destroyTopic 0).2.topicIndex = sampleTopic.topicIndex := by
  have h1 := (destroyTopic_soft_delete sampleTopic 7).1 rfl
  have h2 := (destroyTopic_soft_delete sampleTopic 0).2
    { id := 0, name := "t", subscribers := [(0, cbOk), (1, cbOk)],
      buffer := none, nextSubId := 2 } rfl
  exact ⟨h1, h2.1, h2.2.2.1⟩

/-- C10: re-enabling a buffer on a topic that already has one replaces it
with a fresh empty ring buffer of the new capacity, so the buffered
messages are discarded and `buffer_size` is 0 right afterwards while
`buffer_capacity` reports the new capacity; the default capacity is 100. -/
theorem enableTopicBuffer_replaces {π : Type} (s : MessageQueue π)
    (tid c : Nat) (t : TopicState π) (ht : s.topics.get? tid = some t)
    (hbuf : t.buffer.isSome = true) :
    (s.enableTopicBuffer tid c).getBufferSize tid = 0 ∧
    (s.enableTopicBuffer tid c).getBufferCapacity tid = c ∧
    (s.enableTopicBuffer tid c).getBufferedMessages tid = [] ∧
    s.enableTopicBufferDefault tid = s.enableTopicBuffer tid 100 := by
  have hstep : s.enableTopicBuffer tid c =
      { s with topics := s.topics.set tid { t with buffer := some (RingBuffer.new c) } } := by
    rw [MessageQueue.enableTopicBuffer, MessageQueue.getTopic, ht]
  have hget : (s.enableTopicBuffer tid c).topics.get? tid =
      some { t with buffer := some (RingBuffer.new c) } := by
    rw [hstep]
    dsimp only
    rw [List.get?_set_eq, ht]
    rfl
  refine ⟨?_, ?_, ?_, rfl⟩
  · rw [MessageQueue.getBufferSize, MessageQueue.getTopic, hget]
    rfl
  · rw [MessageQueue.getBufferCapacity, MessageQueue.getTopic, hget]
    rfl
  · rw [MessageQueue.getBufferedMessages, MessageQueue.getTopic, hget]
    rfl

/-- Witness for C10: `sampleBuffered` has one buffered message; re-enabling
with capacity 3 discards it. -/
theorem enableTopicBuffer_replaces_witness :
    sampleBuffered.getBufferSize 0 = 1 ∧
    (sampleBuffered.enableTopicBuffer 0 3).getBufferSize 0 = 0 ∧
    (sampleBuffered.enableTopicBuffer 0 3).getBufferCapacity 0 = 3 ∧
    (sampleBuffered.enableTopicBuffer 0 3).getBufferedMessages 0 = [] := by
  have h := enableTopicBuffer_replaces sampleBuffered 0 3
    { id := 0, name := "t", subscribers := []
      buffer := some ((RingBuffer.new 5).push
        { id := "m0", topic_id := 0, origin_id := "A",
          payload := 7, timestamp := 1 }).2
      nextSubId := 0 } rfl rfl
  exact ⟨rfl, h.1, h.2.1, h.2.2.1⟩

theorem mapSet_fresh {κ ν : Type} [DecidableEq κ] {m : List (κ × ν)} {k : κ}
    (v : ν) (h : (m.any fun e => decide (e.1 = k)) = false) :
    mapSet m k v = m ++ [(k, v)] := by
  rw [mapSet, if_neg]
  intro hc
  rw [h] at hc
  exact Bool.false_ne_true hc

theorem dispatchLocal_known {π : Type} (s : MessageQueue π) (m : Message π)
    (t : TopicState π) (hopen : s.isClosed = false)
    (ht : s.topics.get? m.topic_id = some t) :
    (s.dispatchLocal m).2 =
      MessageQueue.runSubscribers t.subscribers m.payload m.topic_id
        m.timestamp m.id := by
  rw [MessageQueue.dispatchLocal, hopen, if_neg Bool.false_ne_true]
  dsimp only
  rw [ht]
  dsimp only
  cases t.buffer with
  | none => rfl
  | some b => rfl

theorem cbError_mem_runSubscribers {π : Type} (p : π) (tid ts : Nat)
    (mid : String) (sid : Nat) (cb : SubscriberCallback π) (err : String)
    (herr : cb p tid ts mid = Except.error err) :
    ∀ pre post : List (Nat × SubscriberCallback π),
      Event.cbError sid err ∈
        MessageQueue.runSubscribers (pre ++ (sid, cb) :: post) p tid ts mid := by
  intro pre
  induction pre with
  | nil =>
    intro post
    rw [List.nil_append, MessageQueue.runSubscribers, herr]
    exact List.mem_cons_of_mem _ (List.mem_cons_self _ _)
  | cons e rest ih =>
    intro post
    obtain ⟨esid, ecb⟩ := e
    rw [List.cons_append, MessageQueue.runSubscribers]
    cases ecb p tid ts mid with
    | ok u => exact List.mem_cons_of_mem _ (ih post)
    | error e2 =>
      exact List.mem_cons_of_mem _ (List.mem_cons_of_mem _ (ih post))

/-- C3: on an open instance, one publish to a registered topic invokes each
stored subscriber's callback exactly once, in subscriber-table order (the
JS `Map` iterates in insertion order, and a fresh subscription is appended
at the end of the table, so table order is registration order), each with
the identical four arguments `(payload, topic_id, timestamp, message_id)`. -/
theorem publish_fanout_in_order {π : Type} (s : MessageQueue π) (tid : Nat)
    (p : π) (uuid : String) (now : Nat) (t : TopicState π)
    (cb : SubscriberCallback π)
    (ht : s.topics.get? tid = some t) (hopen : s.isClosed = false) :
    invocations (s.publishRun tid p uuid now).2 =
      (t.subscribers.map fun sc => (sc.1, p, tid, now, uuid)) ∧
    ((t.subscribers.any fun e => decide (e.1 = t.nextSubId)) = false →
      s.subscribe tid cb = Except.ok (t.nextSubId,
        { s with topics := s.topics.set tid { t with nextSubId := t.nextSubId + 1, subscribers := t.subscribers ++ [(t.nextSubId, cb)] } })) := by
  constructor
  · rw [MessageQueue.publishRun]
    dsimp only
    rw [invocations_append, invocations_broadcast, List.append_nil]
    rw [dispatchLocal_known s (s.createMessage tid p uuid now) t hopen
      (show s.topics.get? (s.createMessage tid p uuid now).topic_id = some t from ht)]
    rw [invocations_runSubscribers]
    rfl
  · intro hfresh
    rw [MessageQueue.subscribe, MessageQueue.getTopic, ht]
    dsimp only
    rw [mapSet_fresh cb hfresh]

/-- Witness for C3 at a concrete two-subscriber topic. -/
theorem publish_fanout_in_order_witness :
    sampleTopic.topics.get? 0 = some { id := 0, name := "t", subscribers := [(0, cbOk), (1, cbOk)], buffer := none, nextSubId := 2 } ∧
    sampleTopic.isClosed = false ∧
    invocations (sampleTopic.publishRun 0 7 "m" 3).2 =
      [(0, 7, 0, 3, "m"), (1, 7, 0, 3, "m")] := by
  have h := publish_fanout_in_order sampleTopic 0 7 "m" 3
    { id := 0, name := "t", subscribers := [(0, cbOk), (1, cbOk)],
      buffer := none, nextSubId := 2 } cbOk rfl rfl
  refine ⟨rfl, rfl, ?_⟩
  rw [h.1]
  decide

/-- C4: a subscriber callback that raises an error does not prevent
delivery: every subscriber before and after it is still invoked exactly
once with the identical arguments, the error is caught and reported to the
observability sink (`console.error`), and the publish call itself returns
normally (the error never propagates to the publisher). -/
theorem callback_error_isolated {π : Type} (s : MessageQueue π) (tid : Nat)
    (p : π) (uuid : String) (now : Nat) (t : TopicState π)
    (pre post : List (Nat × SubscriberCallback π)) (sid : Nat)
    (cb : SubscriberCallback π) (err : String)
    (ht : s.topics.get? tid = some t) (hopen : s.isClosed = false)
    (hsubs : t.subscribers = pre ++ (sid, cb) :: post)
    (herr : cb p tid now uuid = Except.error err) :
    invocations (s.publishRun tid p uuid now).2 =
      (pre.map fun sc => (sc.1, p, tid, now, uuid)) ++
        (sid, p, tid, now, uuid) ::
          (post.map fun sc => (sc.1, p, tid, now, uuid)) ∧
    Event.cbError sid err ∈ (s.publishRun tid p uuid now).2 ∧
    s.publish tid p uuid now = Except.ok (s.publishRun tid p uuid now) := by
  have hdk := dispatchLocal_known s (s.createMessage tid p uuid now) t hopen
    (show s.topics.get? (s.createMessage tid p uuid now).topic_id = some t from ht)
  refine ⟨?_, ?_, rfl⟩
  · rw [MessageQueue.publishRun]
    dsimp only
    rw [invocations_append, invocations_broadcast, List.append_nil, hdk,
      invocations_runSubscribers, hsubs, List.map_append, List.map_cons]
    rfl
  · rw [MessageQueue.publishRun]
    dsimp only
    refine List.mem_append_left _ ?_
    rw [hdk, hsubs]
    exact cbError_mem_runSubscribers p tid now uuid sid cb err herr pre post

/-- Witness for C4 at a concrete topic whose middle subscriber raises. -/
theorem callback_error_isolated_witness :
    cbBad 7 0 3 "m" = Except.error "boom" ∧
    invocations (sampleTopicErr.publishRun 0 7 "m" 3).2 =
      [(0, 7, 0, 3, "m"), (1, 7, 0, 3, "m"), (2, 7, 0, 3, "m")] ∧
    Event.cbError 1 "boom" ∈ (sampleTopicErr.publishRun 0 7 "m" 3).2 := by
  have h := callback_error_isolated sampleTopicErr 0 7 "m" 3
    { id := 0, name := "t", subscribers := [(0, cbOk), (1, cbBad), (2, cbOk)],
      buffer := none, nextSubId := 3 }
    [(0, cbOk)] [(2, cbOk)] 1 cbBad "boom" rfl rfl rfl rfl
  refine ⟨rfl, ?_, h.2.1⟩
  rw [h.1]
  decide

theorem registerTopic_seenIds {π : Type} (s : MessageQueue π) (name : String) :
    (s.registerTopic name).2.seenIds = s.seenIds := by
  cases hm : mapGet s.topicIndex name with
  | some id => rw [MessageQueue.registerTopic, hm]
  | none => rw [MessageQueue.registerTopic, hm]

theorem registerTopic_isClosed {π : Type} (s : MessageQueue π) (name : String) :
    (s.registerTopic name).2.isClosed = s.isClosed := by
  cases hm : mapGet s.topicIndex name with
  | some id => rw [MessageQueue.registerTopic, hm]
  | none => rw [MessageQueue.registerTopic, hm]

theorem dispatchLocal_seenIds {π : Type} (s : MessageQueue π) (m : Message π)
    (hopen : s.isClosed = false) :
    (s.dispatchLocal m).1.seenIds = seenAdd s.seenIds m.id := by
  rw [MessageQueue.dispatchLocal, hopen, if_neg Bool.false_ne_true]
  dsimp only
  split <;> rfl

theorem dispatchLocal_topicIndex {π : Type} (s : MessageQueue π)
    (m : Message π) : (s.dispatchLocal m).1.topicIndex = s.topicIndex := by
  rw [MessageQueue.dispatchLocal]
  split
  · rfl
  · dsimp only
    split <;> rfl

theorem contains_seenAdd (l : List String) (x : String) :
    (seenAdd l x).contains x = true := by
  rw [seenAdd]
  split
  · assumption
  · simp

theorem contains_seenAdd_mono (l : List String) (x y : String)
    (h : l.contains y = true) : (seenAdd l x).contains y = true := by
  rw [seenAdd]
  split
  · exact h
  · have hm : y ∈ l := List.elem_iff.mp h
    exact List.elem_eq_true_of_mem (List.mem_append_left _ hm)

theorem broadcast_closed {π : Type} (s : MessageQueue π) (m : Message π)
    (h : s.isClosed = true) : s.broadcast m = [] := by
  simp [MessageQueue.broadcast, h]

theorem handleChannelMessage_no_post {π : Type} (s : MessageQueue π)
    (k : Nat) (w : WireMessage π) :
    ((s.handleChannelMessage k w).2.all fun e => !isPost e) = true := by
  rw [MessageQueue.handleChannelMessage]
  split
  · rfl
  · split
    · split
      · rfl
      · try dsimp only
        split
        · rfl
        · try dsimp only
          exact dispatchLocal_no_post _ _
    · rfl

/-- C6 counterexample: a fresh, never-seen message id whose envelope's
`origin_id` equals the receiving instance's own client id falls into the
claim's "otherwise" case, yet the code only records the id in the seen-set
and neither auto-registers the topic name nor dispatches anything. -/
theorem handleChannelMessage_counterexample :
    sampleEmpty.seenIds = [] ∧ sampleEmpty.clientId = "A" ∧
    sampleEmpty.handleChannelMessage 0
        { id := "m", topic_id := 9, origin_id := "A", payload := (1 : Nat), timestamp := 0, topic_name := "t" } =
      ({ sampleEmpty with seenIds := ["m"] }, []) ∧
    ({ sampleEmpty with seenIds := ["m"] } : MessageQueue Nat).topicIndex = [] := by
  exact ⟨rfl, rfl, rfl, rfl⟩

/-- C6 (amended): on receipt of `[kind, envelope]` by an open instance: a
`kind ≠ 0` message is ignored with no state change; an already-seen id is
discarded with no state change; an unseen id whose `origin_id` equals the
instance's own client id only adds the id to the seen-set (the extra
own-origin guard the claim omits); otherwise the id is added to the
seen-set, the topic is resolved/auto-registered by name, and a local
message carrying the locally resolved topic id is handed to
`dispatchLocal`; in every case nothing is posted back to the broadcast
channel. -/
theorem handleChannelMessage_amended {π : Type} (s : MessageQueue π)
    (k : Nat) (w : WireMessage π) (hopen : s.isClosed = false) :
    (k ≠ 0 → s.handleChannelMessage k w = (s, [])) ∧
    (s.seenIds.contains w.id = true → s.handleChannelMessage 0 w = (s, [])) ∧
    (s.seenIds.contains w.id = false → w.origin_id = s.clientId →
      s.handleChannelMessage 0 w =
        ({ s with seenIds := seenAdd s.seenIds w.id }, [])) ∧
    (s.seenIds.contains w.id = false → w.origin_id ≠ s.clientId →
      s.handleChannelMessage 0 w =
        (({ s with seenIds := seenAdd s.seenIds w.id }).registerTopic w.topic_name).2.dispatchLocal
          { id := w.id, topic_id := (({ s with seenIds := seenAdd s.seenIds w.id }).registerTopic w.topic_name).1, origin_id := w.origin_id, payload := w.payload, timestamp := w.timestamp } ∧
      (s.handleChannelMessage 0 w).1.seenIds.contains w.id = true ∧
      mapGet (s.handleChannelMessage 0 w).1.topicIndex w.topic_name ≠ none) ∧
    ((s.handleChannelMessage k w).2.all fun e => !isPost e) = true := by
  refine ⟨?_, ?_, ?_, ?_, handleChannelMessage_no_post s k w⟩
  · intro hk
    rw [MessageQueue.handleChannelMessage, hopen, if_neg Bool.false_ne_true,
      if_neg hk]
  · intro hseen
    rw [MessageQueue.handleChannelMessage, hopen, if_neg Bool.false_ne_true,
      if_pos rfl, if_pos hseen]
  · intro hseen horig
    rw [MessageQueue.handleChannelMessage, hopen, if_neg Bool.false_ne_true,
      if_pos rfl, if_neg (by rw [hseen]; exact Bool.false_ne_true)]
    try dsimp only
    rw [if_pos horig]
  · intro hseen horig
    have heq : s.handleChannelMessage 0 w =
        (({ s with seenIds := seenAdd s.seenIds w.id }).registerTopic w.topic_name).2.dispatchLocal
          { id := w.id, topic_id := (({ s with seenIds := seenAdd s.seenIds w.id }).registerTopic w.topic_name).1, origin_id := w.origin_id, payload := w.payload, timestamp := w.timestamp } := by
      rw [MessageQueue.handleChannelMessage, hopen, if_neg Bool.false_ne_true,
        if_pos rfl, if_neg (by rw [hseen]; exact Bool.false_ne_true)]
      try dsimp only
      rw [if_neg horig]
    have hclosed2 : (({ s with seenIds := seenAdd s.seenIds w.id }).registerTopic w.topic_name).2.isClosed = false := by
      rw [registerTopic_isClosed]
      exact hopen
    refine ⟨heq, ?_, ?_⟩
    · rw [heq, dispatchLocal_seenIds _ _ hclosed2]
      rw [registerTopic_seenIds]
      exact contains_seenAdd_mono _ _ _ (contains_seenAdd _ _)
    · rw [heq, dispatchLocal_topicIndex]
      rw [registerTopic_topicIndex_get]
      exact Option.some_ne_none _

/-- Witness for the amended C6 at a concrete inbound foreign message. -/
theorem handleChannelMessage_amended_witness :
    sampleEmpty.seenIds.contains "m" = false ∧ "B" ≠ sampleEmpty.clientId ∧
    (sampleEmpty.handleChannelMessage 0
        { id := "m", topic_id := 4, origin_id := "B", payload := (1 : Nat), timestamp := 0, topic_name := "t" }).1.seenIds.contains "m" = true ∧
    mapGet (sampleEmpty.handleChannelMessage 0
        { id := "m", topic_id := 4, origin_id := "B", payload := (1 : Nat), timestamp := 0, topic_name := "t" }).1.topicIndex "t" ≠ none := by
  have h := (handleChannelMessage_amended sampleEmpty 0
    { id := "m", topic_id := 4, origin_id := "B", payload := (1 : Nat), timestamp := 0, topic_name := "t" } rfl).2.2.2.1
    rfl (by decide)
  exact ⟨rfl, by decide, h.2.1, h.2.2⟩

/-- C7 counterexample: after `close()`, a `subscribe` call does raise a
`TopicNotFound` error — an exception escapes to the caller, contradicting
the claim that no publish/subscribe call after `close()` has an observable
exception. -/
theorem subscribe_after_close_counterexample :
    (MessageQueue.close sampleTopic).subscribe 0 cbOk =
      Except.error (QueueError.topicNotFound 0) := rfl

/-- C7 (amended): `close()` releases the channel handle and empties the
topic table, the name index and the seen-set; afterwards `publish` is a
complete no-op (state unchanged, no events, no error), while `subscribe`
raises `TopicNotFound` (the topic table is empty) without any state
change. -/
theorem close_clears_state_amended {π : Type} (s : MessageQueue π)
    (tid : Nat) (p : π) (uuid : String) (now : Nat)
    (cb : SubscriberCallback π) :
    s.close.isClosed = true ∧ s.close.channel = false ∧
    s.close.topics = [] ∧ s.close.topicIndex = [] ∧ s.close.seenIds = [] ∧
    s.close.publish tid p uuid now = Except.ok (s.close, []) ∧
    s.close.subscribe tid cb = Except.error (QueueError.topicNotFound tid) := by
  refine ⟨rfl, rfl, rfl, rfl, rfl, ?_, ?_⟩
  · have hd : s.close.dispatchLocal (s.close.createMessage tid p uuid now) =
        (s.close, []) := by
      rw [MessageQueue.dispatchLocal,
        if_pos (show s.close.isClosed = true from rfl)]
    have hb : s.close.broadcast (s.close.createMessage tid p uuid now) = [] :=
      broadcast_closed _ _ rfl
    rw [MessageQueue.publish, MessageQueue.publishRun, hd]
    dsimp only
    rw [hb]
    rfl
  · rfl

/-- Witness for the C2 theorem at capacity 2 and pushes `[1, 2, 3]`. -/
theorem ringBuffer_push_sequence_spec_witness :
    0 < 2 ∧ ((new (α := Nat) 2).pushAll [1, 2, 3]).isFull = true ∧
    ((new (α := Nat) 2).pushAll [1, 2, 3]).getAll = [2, 3] ∧
    ((new (α := Nat) 2).pushAll [1, 2, 3]).getAll.length = 2 ∧
    (((new (α := Nat) 2).pushAll [1, 2, 3]).push 9).1 = some 2 := by
  have h := ringBuffer_push_sequence_spec 2 [1, 2, 3] 9
  refine ⟨by decide, by decide, ?_, ?_, ?_⟩
  · rw [h.1]; decide
  · rw [h.2.1]; decide
  · rw [h.2.2.2 (by decide) (by decide)]; decide

end WasmRipple
